import Mathlib

/-!
# FortunaSays: session state machine and leaderboard merge

A shallow embedding of `fortunasays.c`.

* C `int` variables are embedded as `Int` without wrap-around. Signed overflow is
  undefined in C, and on the 16-bit target it cannot happen before a level
  outgrows its 100-cell array (round 196, score about 10000).
* The flags `response`, `game_in_progress` and `sd_connected` only ever hold 0 or 1
  and are embedded as `Bool`. The globals `input_num` and `next` are never used.
* Display and LED calls do not touch any of the globals and are left out, except
  where a counter records that they happened.
* `button_pressed` is registered as a periodic task and `main` spins in empty
  loops on variables that only `button_pressed` writes, so the task runs
  asynchronously to `main`. `main` is therefore embedded as a small-step machine
  whose steps are separated at its reads of the shared variables, and a run of the
  system is an interleaving of `main` steps and task invocations.
* The scores file is embedded at the granularity of score lines: one `Int` per
  line, as produced by the format `%d\n`.
-/

namespace FortunaSays

/-! ## Data model -/

/-- The enum `arrow_dir`, `typedef enum {UP,DOWN,RIGHT,LEFT} arrow_dir`. -/
inductive arrow_dir
  | UP
  | DOWN
  | RIGHT
  | LEFT
  deriving DecidableEq, Repr

open arrow_dir

/-- Number of cells of `flashes` in `struct level`. -/
def FLASHES_CAPACITY : Nat := 100

/-- The struct `level`: the cursor `response_num` and the array `flashes`. The array is
embedded as the content of its cells by index; only indices below
`FLASHES_CAPACITY` exist in the C object. -/
structure level where
  response_num : Int
  flashes : Nat → arrow_dir

/-- The global variables of `fortunasays.c` that the session logic reads or writes. -/
structure State where
  response : Bool
  game_round : Int
  strikes : Int
  current_level : level
  level_size : Int
  score : Int
  game_in_progress : Bool
  sd_connected : Bool

/-- The switch readings taken by one invocation of `button_pressed`:
`get_switch_long(_BV(OS_CD))` and `get_switch_press` of the centre, north, east,
south and west switches. -/
structure Poll where
  cd_long : Bool
  centre : Bool
  north : Bool
  east : Bool
  south : Bool
  west : Bool
  deriving DecidableEq, Repr

/-! ## Level generation -/

/-- Number of flashes for a round and strike count (`num_times_to_flash`). The C
division on `int` truncates toward zero. -/
def num_times_to_flash (round strikes : Int) : Int :=
  if strikes = 0 then 3 + Int.tdiv round 2
  else if strikes = 1 then 2 + Int.tdiv round 2
  else 1 + Int.tdiv round 2

/-- The local table `possible_flashes[4] = {UP,DOWN,LEFT,RIGHT}` of `generate_level`. -/
def possible_flashes (k : Nat) : arrow_dir :=
  match k with
  | 0 => UP
  | 1 => DOWN
  | 2 => LEFT
  | _ => RIGHT

/-- The loop `for(int i = 0; i < num_flashes; i++) created.flashes[i] = ...` with
`remaining` iterations left. `rand i` is the value returned by the call of `rand()`
in iteration `i`. Besides the cells, the loop is instrumented with the list of the
indices it stores to, in order. -/
def generate_loop (rand : Nat → Nat) :
    Nat → Nat → (Nat → arrow_dir) → List Nat → (Nat → arrow_dir) × List Nat
  | 0, _, flashes, stores => (flashes, stores)
  | remaining + 1, i, flashes, stores =>
      generate_loop rand remaining (i + 1)
        (Function.update flashes i (possible_flashes (rand i % 4))) (stores ++ [i])

/-- The body of `generate_level` up to the return: `created` is the content of the
uninitialised local struct. The source has no test of `num_flashes` against the
array size. -/
def generate_level_run (num_flashes : Int) (rand : Nat → Nat) (created : Nat → arrow_dir) :
    (Nat → arrow_dir) × List Nat :=
  generate_loop rand num_flashes.toNat 0 created []

/-- The level returned by `generate_level`. -/
def generate_level (num_flashes : Int) (rand : Nat → Nat) (created : Nat → arrow_dir) : level :=
  { response_num := 0, flashes := (generate_level_run num_flashes rand created).1 }

/-- The indices of `created.flashes` that `generate_level` stores to. -/
def generate_level_stores (num_flashes : Int) (rand : Nat → Nat)
    (created : Nat → arrow_dir) : List Nat :=
  (generate_level_run num_flashes rand created).2

/-! ## The input task -/

/-- The test `if(current_level.response_num >= level_size)` closing `button_pressed`. -/
def level_passed_check (s : State) : State :=
  if s.current_level.response_num ≥ s.level_size then
    { s with game_round := s.game_round + 1, response := false, score := s.score + s.level_size }
  else s

/-- The statement `current_level.response_num++`. -/
def advance_cursor (s : State) : State :=
  { s with current_level :=
      { s.current_level with response_num := s.current_level.response_num + 1 } }

/-- One invocation of the task `button_pressed` on the readings `p`. The cursor
`response_num` starts at 0 and is only ever incremented, so it is never negative when
it indexes `flashes`. -/
def button_pressed (s0 : State) (p : Poll) : State :=
  let s : State := if p.cd_long then { s0 with sd_connected := true } else s0
  if !s.game_in_progress && p.centre then
    { s with game_in_progress := true }
  else if !s.game_in_progress && p.south then
    s
  else if !s.response && (p.north || p.east || p.south || p.west) then
    s
  else if !s.response then
    s
  else
    let cur := s.current_level.flashes s.current_level.response_num.toNat
    if p.north && cur == UP then level_passed_check (advance_cursor s)
    else if p.east && cur == RIGHT then level_passed_check (advance_cursor s)
    else if p.south && cur == DOWN then level_passed_check (advance_cursor s)
    else if p.west && cur == LEFT then level_passed_check (advance_cursor s)
    else if p.north || p.east || p.south || p.west then
      { s with strikes := s.strikes + 1, response := false }
    else level_passed_check s

/-- The readings of a poll in which exactly the switch of direction `d` was pressed:
north for UP, east for RIGHT, south for DOWN, west for LEFT. -/
def press (d : arrow_dir) : Poll :=
  { cd_long := false, centre := false,
    north := decide (d = UP), east := decide (d = RIGHT),
    south := decide (d = DOWN), west := decide (d = LEFT) }

/-- The first `n` symbols of the current level. -/
def level_symbols (s : State) (n : Nat) : List arrow_dir :=
  (List.range n).map s.current_level.flashes

/-- The state `s` with the cursor of its level set to `k`. -/
def with_cursor (s : State) (k : Int) : State :=
  { s with current_level := { s.current_level with response_num := k } }

/-- Feeds a list of polls to `button_pressed`, one invocation per poll. -/
def feed (s : State) (polls : List Poll) : State :=
  polls.foldl button_pressed s

/-! ## The main loop -/

/-- Positions of `main` between its reads of the shared variables: the wait
`while(!game_in_progress) {}`, the test `while(strikes < 3)`, the test
`if(!response)`, and the code after the session loop. -/
inductive Pc
  | wait_start
  | loop_test
  | response_test
  | game_over
  deriving DecidableEq, Repr

/-- The whole system: the globals, the position of `main`, the scores handed to
`update_scores` so far, and the number of calls of `display_level` that got past
its guard `if(strikes > 2) return;`. -/
structure Sys where
  st : State
  pc : Pc
  handed : List Int
  levels_shown : Nat

/-- The body of `if(!response)` in the session loop: compute the length, generate
and display the level, record its size and open the response phase. -/
def render_level (y : Sys) (rand : Nat → Nat) (created : Nat → arrow_dir) : Sys :=
  let times_to_flash := num_times_to_flash y.st.game_round y.st.strikes
  { y with
    st := { y.st with
      current_level := generate_level times_to_flash rand created,
      level_size := times_to_flash,
      response := true },
    levels_shown := if y.st.strikes > 2 then y.levels_shown else y.levels_shown + 1 }

/-- One step of `main` from its current position. -/
def main_step (y : Sys) (rand : Nat → Nat) (created : Nat → arrow_dir) : Sys :=
  match y.pc with
  | Pc.wait_start =>
      if y.st.game_in_progress then
        { y with st := { y.st with game_round := 1, strikes := 0, score := 0 },
                 pc := Pc.loop_test }
      else y
  | Pc.loop_test =>
      if y.st.strikes < 3 then { y with pc := Pc.response_test }
      else { y with pc := Pc.game_over }
  | Pc.response_test =>
      if !y.st.response then { render_level y rand created with pc := Pc.loop_test }
      else { y with pc := Pc.loop_test }
  | Pc.game_over =>
      { y with st := { y.st with game_in_progress := false },
               pc := Pc.wait_start,
               handed := y.handed ++ [y.st.score] }

/-- What happens next in the system: a step of `main`, or one invocation of the task. -/
inductive Action
  | main (rand : Nat → Nat) (created : Nat → arrow_dir)
  | task (p : Poll)

/-- One action of the system. -/
def step (y : Sys) (a : Action) : Sys :=
  match a with
  | Action.main rand created => main_step y rand created
  | Action.task p => { y with st := button_pressed y.st p }

/-- A run of the system. -/
def run (y : Sys) (actions : List Action) : Sys :=
  actions.foldl step y

/-- The system when `main` reaches its outer loop: globals zero-initialised,
`game_in_progress` and `sd_connected` cleared. -/
def initial : Sys :=
  { st := { response := false, game_round := 0, strikes := 0,
            current_level := { response_num := 0, flashes := fun _ => UP },
            level_size := 0, score := 0, game_in_progress := false, sd_connected := false },
    pc := Pc.wait_start, handed := [], levels_shown := 0 }

/-- One pass of the session loop taken without interruption: the test
`strikes < 3` followed by the test `!response`. -/
def session_pass (y : Sys) (rand : Nat → Nat) (created : Nat → arrow_dir) : Sys :=
  main_step (main_step y rand created) rand created

/-! ## The leaderboard -/

/-- What one call of `f_printf` on the scores file is given: a score line (the
format `%d\n` applied to a score, or a buffer slot holding the line read for that
score), or the content of a buffer slot `buf[slot]` that no successful `f_gets`
has filled. -/
inductive Written
  | line (v : Int)
  | unfilled (slot : Nat)
  deriving DecidableEq, Repr

/-- The loop `while(f_gets(buf[counter], 10, &scores))` over the lines still unread.
`buf` lists the slots filled so far: slot `i` holds `buf[i]`, and the slots from
`buf.length` on have not been filled. Returns `num_scores`, `counter` and `buf`. -/
def read_loop : List Int → Nat → Nat → List Int → Nat × Nat × List Int
  | [], num_scores, counter, buf => (num_scores, counter, buf)
  | l :: rest, num_scores, counter, buf =>
      if counter + 1 > 9 then (num_scores + 1, counter + 1, buf ++ [l])
      else read_loop rest (num_scores + 1) (counter + 1) (buf ++ [l])

/-- The loop `for(int i = 0; i < counter; i++) if(score > atoi(buf[i])) ...` over the
filled slots from index `i` on; returns `score_index`, which starts at 10. -/
def find_loop (score : Int) : List Int → Nat → Nat
  | [], _ => 10
  | b :: rest, i => if score > b then i else find_loop score rest (i + 1)

/-- The argument `buf[c]` of `f_printf`. -/
def slot_text (buf : List Int) (c : Nat) : Written :=
  match buf[c]? with
  | some v => Written.line v
  | none => Written.unfilled c

/-- The loop `for(int i = 0; i < 10; i++)` of the write block with `remaining`
iterations left; returns the `f_printf` calls in order. -/
def write_loop (score : Int) (score_index num_scores : Nat) (buf : List Int) :
    Nat → Nat → Nat → List Written
  | 0, _, _ => []
  | remaining + 1, i, counter =>
      if counter > num_scores then []
      else if i = score_index then
        Written.line score :: write_loop score score_index num_scores buf remaining (i + 1) counter
      else
        slot_text buf counter ::
          write_loop score score_index num_scores buf remaining (i + 1) (counter + 1)

/-- The function `update_scores`. `file` is `none` when `f_open` with `FA_READ` fails and
otherwise the score lines of `scores.txt`; `write_ok` tells whether `f_open` with
`FA_WRITE | FA_OPEN_ALWAYS` succeeds. The result is `none` when the file is never
opened for writing, and otherwise the `f_printf` calls made on the file opened for
writing, positioned at its start. -/
def update_scores (sd_connected : Bool) (file : Option (List Int)) (write_ok : Bool)
    (score : Int) : Option (List Written) :=
  if !sd_connected then none
  else
    let r : Nat × Nat × List Int :=
      match file with
      | some lines =>
          let rd := read_loop lines 0 0 []
          let found := find_loop score rd.2.2 0
          let score_index := if found = 10 ∧ rd.2.1 < 9 then rd.2.1 else found
          (score_index, rd.1, rd.2.2)
      | none => (10, 0, [])
    if write_ok then some (write_loop score r.1 r.2.1 r.2.2 10 0 0) else none

/-- Following the words of the specification: the candidate is placed immediately
before the first entry strictly less than it, or appended when there is none. -/
def insert_score (c : Int) : List Int → List Int
  | [] => [c]
  | x :: xs => if x < c then c :: x :: xs else x :: insert_score c xs

/-- Following the words of the specification, the merge into a full leaderboard: if
some entry is strictly less than the candidate it is inserted before the first such
entry and the former last entry is dropped; otherwise the entries are unchanged. -/
def merge_full (c : Int) (l : List Int) : List Int :=
  if ∃ x ∈ l, x < c then (insert_score c l).dropLast else l

/-! ## Concrete inputs -/

/-- A `rand` that returns `k` on every call. -/
def rand_const (k : Nat) : Nat → Nat :=
  fun _ => k

/-- Array cells all holding `d`. -/
def cells (d : arrow_dir) : Nat → arrow_dir :=
  fun _ => d

/-- A running game in the response phase of round 1: the level UP, RIGHT, DOWN with
the cursor at 0. -/
def demo_state : State :=
  { response := true, game_round := 1, strikes := 0,
    current_level :=
      { response_num := 0,
        flashes := fun i => match i with
          | 0 => UP
          | 1 => RIGHT
          | 2 => DOWN
          | _ => LEFT },
    level_size := 3, score := 0, game_in_progress := true, sd_connected := false }

/-- The poll in which only the centre switch was pressed. -/
def centre_poll : Poll :=
  { cd_long := false, centre := true, north := false, east := false, south := false,
    west := false }

/-- A step of `main` in which every `rand()` returns 0, so that every symbol is UP. -/
def main_up : Action :=
  Action.main (rand_const 0) (cells UP)

/-- A poll pressing south, which mismatches a level made of UP. -/
def wrong_poll : Action :=
  Action.task (press DOWN)

/-- A game whose third strike arrives after `main` has tested `strikes < 3` and
before it tests `response`: start, two struck levels, a third level, the test
`strikes < 3` with 2 strikes, the third strike, then the test of `response` and the
test `strikes < 3` again. -/
def third_strike_schedule : List Action :=
  [Action.task centre_poll, main_up,
   main_up, main_up, wrong_poll,
   main_up, main_up, wrong_poll,
   main_up, main_up,
   main_up, wrong_poll, main_up, main_up]

/-- A game that ends with the response flag still set: as `third_strike_schedule`, but
the level generated after the third strike is the single symbol DOWN (`rand()`
returns 1), and `main` then runs its game-over code, clearing `game_in_progress`. -/
def stale_level_schedule : List Action :=
  [Action.task centre_poll, main_up,
   main_up, main_up, wrong_poll,
   main_up, main_up, wrong_poll,
   main_up, main_up,
   main_up, wrong_poll, Action.main (rand_const 1) (cells UP), main_up,
   main_up]

/-- The system is at the top of the session loop of a running game in round `r`, with
no strike and the response flag clear. -/
def session_ready (y : Sys) (r : Int) : Prop :=
  y.pc = Pc.loop_test ∧ y.st.response = false ∧ y.st.strikes = 0 ∧ y.st.game_round = r ∧
    y.st.game_in_progress = true

/-! ## Theorems -/

/-- Claim C9: for rounds `r >= 1` and strikes `s` in 0, 1, 2 the number of flashes is
`(3 - s) + r / 2`, is non-increasing in the strikes, non-decreasing in the round, and
at least 1. -/
theorem num_times_to_flash_spec (r s : Int) (hr : 1 ≤ r) (hs0 : 0 ≤ s) (hs2 : s ≤ 2) :
    num_times_to_flash r s = (3 - s) + r / 2 ∧
    (∀ s2 : Int, s ≤ s2 → s2 ≤ 2 → num_times_to_flash r s2 ≤ num_times_to_flash r s) ∧
    (∀ r2 : Int, r ≤ r2 → num_times_to_flash r s ≤ num_times_to_flash r2 s) ∧
    1 ≤ num_times_to_flash r s := by
  have key : ∀ a b : Int, 1 ≤ a → 0 ≤ b → b ≤ 2 → num_times_to_flash a b = (3 - b) + a / 2 := by
    intro a b ha hb0 hb2
    unfold num_times_to_flash
    rw [Int.tdiv_eq_ediv (by omega) (by omega)]
    split_ifs <;> omega
  refine ⟨key r s hr hs0 hs2, ?_, ?_, ?_⟩
  · intro s2 h1 h2
    rw [key r s hr hs0 hs2, key r s2 hr (by omega) h2]
    omega
  · intro r2 h
    rw [key r s hr hs0 hs2, key r2 s (by omega) hs0 hs2]
    omega
  · rw [key r s hr hs0 hs2]
    omega

/-- Witness for claim C9 at round 5 with one strike. -/
theorem num_times_to_flash_spec_witness :
    num_times_to_flash 5 1 = (3 - 1) + 5 / 2 ∧
    (∀ s2 : Int, 1 ≤ s2 → s2 ≤ 2 → num_times_to_flash 5 s2 ≤ num_times_to_flash 5 1) ∧
    (∀ r2 : Int, 5 ≤ r2 → num_times_to_flash 5 1 ≤ num_times_to_flash r2 1) ∧
    1 ≤ num_times_to_flash 5 1 :=
  num_times_to_flash_spec 5 1 (by decide) (by decide) (by decide)

/-- Claim C4: when the response-phase flag is false, one invocation of `button_pressed`
leaves round, strikes, score, the cursor and the symbols of the level unchanged, for
every combination of pressed switches. -/
theorem button_pressed_not_ready (s : State) (p : Poll) (h : s.response = false) :
    (button_pressed s p).game_round = s.game_round ∧
    (button_pressed s p).strikes = s.strikes ∧
    (button_pressed s p).score = s.score ∧
    (button_pressed s p).current_level.response_num = s.current_level.response_num ∧
    (button_pressed s p).current_level.flashes = s.current_level.flashes ∧
    (button_pressed s p).level_size = s.level_size ∧
    (button_pressed s p).response = false := by
  unfold button_pressed
  cases hcd : p.cd_long <;> simp [h] <;> split_ifs <;> simp [h]

/-! ### Feeding a level -/

theorem with_cursor_self (s : State) (k : Int) (h : s.current_level.response_num = k) :
    with_cursor s k = s := by
  subst h
  rfl

/-- In the response phase of a running game, the poll that presses exactly the
direction of the symbol under the cursor advances the cursor and runs the
level-passed test. -/
theorem button_pressed_match (s : State) (hresp : s.response = true)
    (hgame : s.game_in_progress = true) :
    button_pressed s (press (s.current_level.flashes s.current_level.response_num.toNat)) =
      level_passed_check (advance_cursor s) := by
  unfold button_pressed press
  cases hd : s.current_level.flashes s.current_level.response_num.toNat <;>
    simp [hresp, hgame, hd]

theorem level_symbols_succ (s : State) (k : Nat) :
    level_symbols s (k + 1) = level_symbols s k ++ [s.current_level.flashes k] := by
  simp [level_symbols, List.range_succ]

theorem feed_append (s : State) (xs ys : List Poll) :
    feed s (xs ++ ys) = feed (feed s xs) ys := by
  simp [feed, List.foldl_append]

/-- After the first `k` matching polls, with `k` below the level size, only the
cursor has moved. -/
theorem feed_partway (s : State) (hcur : s.current_level.response_num = 0)
    (hresp : s.response = true) (hgame : s.game_in_progress = true) :
    ∀ k : Nat, (k : Int) < s.level_size →
      feed s ((level_symbols s k).map press) = with_cursor s k := by
  intro k
  induction k with
  | zero =>
      intro _
      simp [level_symbols, feed, with_cursor_self s 0 hcur]
  | succ k ih =>
      intro hk
      have hk0 : (k : Int) < s.level_size := by push_cast at hk; omega
      rw [level_symbols_succ, List.map_append, feed_append, ih hk0]
      have hm := button_pressed_match (with_cursor s k) hresp hgame
      simp only [with_cursor, Int.toNat_ofNat] at hm
      simp only [List.map_cons, List.map_nil, feed, List.foldl_cons, List.foldl_nil, with_cursor]
      rw [hm]
      unfold level_passed_check advance_cursor
      have hlt : ¬ ((k : Int) + 1 ≥ s.level_size) := by push_cast at hk; omega
      simp [hlt]

/-- The whole level fed in order: the last matching poll passes the level. -/
theorem feed_all (s : State) (n : Nat) (hn : 1 ≤ n) (hsize : s.level_size = n)
    (hcur : s.current_level.response_num = 0)
    (hresp : s.response = true) (hgame : s.game_in_progress = true) :
    feed s ((level_symbols s n).map press) =
      { with_cursor s n with
        game_round := s.game_round + 1, response := false, score := s.score + n } := by
  obtain ⟨m, rfl⟩ : ∃ m, n = m + 1 := ⟨n - 1, by omega⟩
  have hm0 : (m : Int) < s.level_size := by rw [hsize]; push_cast; omega
  rw [level_symbols_succ, List.map_append, feed_append, feed_partway s hcur hresp hgame m hm0]
  have hm := button_pressed_match (with_cursor s m) hresp hgame
  simp only [with_cursor, Int.toNat_ofNat] at hm
  simp only [List.map_cons, List.map_nil, feed, List.foldl_cons, List.foldl_nil, with_cursor]
  rw [hm]
  unfold level_passed_check advance_cursor
  have hge : (m : Int) + 1 ≥ s.level_size := by rw [hsize]; push_cast; omega
  simp [hge, hsize]

theorem level_symbols_take (s : State) (n k : Nat) (hk : k ≤ n) :
    ((level_symbols s n).map press).take k = (level_symbols s k).map press := by
  simp [level_symbols, ← List.map_take, List.take_range, Nat.min_eq_left hk]

/-- Claim C1, amended: in a running game (`game_in_progress` set), for a level of
length `n >= 1` with cursor 0 and the response-phase flag set, the `n` polls that press
exactly the level's symbols in order end with cursor `n`, score increased by `n`,
round increased by 1, the flag cleared and strikes unchanged; after any `k < n` of
these polls round, score and the flag are unchanged. -/
theorem feed_level_passes (s : State) (n : Nat) (hn : 1 ≤ n) (hsize : s.level_size = n)
    (hcur : s.current_level.response_num = 0)
    (hresp : s.response = true) (hgame : s.game_in_progress = true) :
    (feed s ((level_symbols s n).map press)).current_level.response_num = n ∧
    (feed s ((level_symbols s n).map press)).score = s.score + n ∧
    (feed s ((level_symbols s n).map press)).game_round = s.game_round + 1 ∧
    (feed s ((level_symbols s n).map press)).response = false ∧
    (feed s ((level_symbols s n).map press)).strikes = s.strikes ∧
    ∀ k : Nat, k < n →
      (feed s (((level_symbols s n).map press).take k)).game_round = s.game_round ∧
      (feed s (((level_symbols s n).map press).take k)).score = s.score ∧
      (feed s (((level_symbols s n).map press).take k)).response = true ∧
      (feed s (((level_symbols s n).map press).take k)).current_level.response_num = k := by
  rw [feed_all s n hn hsize hcur hresp hgame]
  refine ⟨rfl, rfl, rfl, rfl, rfl, ?_⟩
  intro k hk
  have hk0 : (k : Int) < s.level_size := by rw [hsize]; exact_mod_cast hk
  rw [level_symbols_take s n k (le_of_lt hk), feed_partway s hcur hresp hgame k hk0]
  exact ⟨rfl, rfl, hresp, rfl⟩

/-! ### Leaderboard -/

/-- The read loop stores the first lines of the file, at most up to slot 9. -/
theorem read_loop_eq (lines : List Int) :
    ∀ (num_scores counter : Nat) (buf : List Int), counter ≤ 9 →
      read_loop lines num_scores counter buf =
        (num_scores + min lines.length (10 - counter),
         counter + min lines.length (10 - counter),
         buf ++ lines.take (10 - counter)) := by
  induction lines with
  | nil => intro ns c buf _; simp [read_loop]
  | cons l rest ih =>
      intro ns c buf hc
      unfold read_loop
      by_cases h9 : c + 1 > 9
      · have hc9 : c = 9 := by omega
        subst hc9
        simp
      · rw [if_neg h9, ih (ns + 1) (c + 1) (buf ++ [l]) (by omega)]
        have e : 10 - c = (10 - (c + 1)) + 1 := by omega
        rw [e, List.take_succ_cons]
        simp only [List.length_cons, List.append_assoc, List.singleton_append,
          Prod.mk.injEq, and_true]
        omega

theorem read_loop_short (lines : List Int) (h : lines.length ≤ 10) :
    read_loop lines 0 0 [] = (lines.length, lines.length, lines) := by
  rw [read_loop_eq lines 0 0 [] (by omega)]
  simp [Nat.min_eq_left h, List.take_of_length_le h]

/-- When no entry is strictly less than the candidate, the search leaves
`score_index` at 10 and the specification appends the candidate. -/
theorem find_loop_none (c : Int) (l : List Int) (h : ∀ x ∈ l, ¬ x < c) :
    ∀ i : Nat, find_loop c l i = 10 := by
  induction l with
  | nil => intro i; rfl
  | cons b rest ih =>
      intro i
      have hb : ¬ c > b := h b (List.mem_cons_self _ _)
      simp only [find_loop, if_neg hb]
      exact ih (fun x hx => h x (List.mem_cons_of_mem _ hx)) (i + 1)

theorem insert_score_none (c : Int) (l : List Int) (h : ∀ x ∈ l, ¬ x < c) :
    insert_score c l = l ++ [c] := by
  induction l with
  | nil => rfl
  | cons b rest ih =>
      have hb : ¬ b < c := h b (List.mem_cons_self _ _)
      simp only [insert_score, if_neg hb, List.cons_append]
      rw [ih (fun x hx => h x (List.mem_cons_of_mem _ hx))]

/-- When some entry is strictly less than the candidate, the search stops at the
first such entry, which is where the specification inserts. -/
theorem find_loop_some (c : Int) (l : List Int) (h : ∃ x ∈ l, x < c) :
    ∀ i : Nat, ∃ d : Nat, d < l.length ∧ find_loop c l i = i + d ∧
      insert_score c l = l.take d ++ c :: l.drop d ∧ (∀ x ∈ l.take d, ¬ x < c) ∧
      (∃ x, l[d]? = some x ∧ x < c) := by
  induction l with
  | nil => simp at h
  | cons b rest ih =>
      intro i
      by_cases hb : b < c
      · refine ⟨0, by simp, ?_, ?_, by simp, ⟨b, by simp, hb⟩⟩
        · have hb2 : c > b := hb
          simp [find_loop, hb2]
        · simp [insert_score, hb]
      · have hrest : ∃ x ∈ rest, x < c := by
          obtain ⟨x, hx, hxc⟩ := h
          rcases List.mem_cons.mp hx with rfl | hx
          · exact absurd hxc hb
          · exact ⟨x, hx, hxc⟩
        obtain ⟨d, hd, hf, hins, hpre, hat⟩ := ih hrest (i + 1)
        refine ⟨d + 1, by simpa using hd, ?_, ?_, ?_, by simpa using hat⟩
        · have hb2 : ¬ c > b := hb
          simp only [find_loop, if_neg hb2, hf]
          omega
        · simp [insert_score, hb, hins]
        · intro x hx
          simp only [List.take_succ_cons, List.mem_cons] at hx
          rcases hx with rfl | hx
          · exact hb
          · exact hpre x hx

/-- Once `counter` exceeds `num_scores` the write loop stops. -/
theorem write_loop_break (score : Int) (score_index num_scores : Nat) (buf : List Int)
    (remaining i counter : Nat) (h : counter > num_scores) :
    write_loop score score_index num_scores buf remaining i counter = [] := by
  cases remaining with
  | zero => rfl
  | succ r => simp [write_loop, h]

/-- The write loop over iterations that do not meet `score_index`: it copies the
filled slots from `counter` on and then passes the first unfilled slot. -/
theorem write_loop_copy (score : Int) (score_index : Nat) (buf : List Int) :
    ∀ (remaining i counter : Nat), counter ≤ buf.length →
      (score_index < i ∨ i + remaining ≤ score_index) →
      write_loop score score_index buf.length buf remaining i counter =
        (((buf.drop counter).map Written.line) ++ [Written.unfilled buf.length]).take remaining := by
  intro remaining
  induction remaining with
  | zero => intro i counter _ _; simp [write_loop]
  | succ r ih =>
      intro i counter hc hidx
      have hne : i ≠ score_index := by omega
      have hcn : ¬ counter > buf.length := by omega
      simp only [write_loop, if_neg hcn, if_neg hne]
      rcases Nat.lt_or_ge counter buf.length with hlt | hge
      · rw [ih (i + 1) (counter + 1) (by omega) (by omega)]
        rw [List.drop_eq_getElem_cons hlt]
        simp only [slot_text, List.getElem?_eq_getElem hlt, List.map_cons, List.cons_append,
          List.take_succ_cons]
      · have hceq : counter = buf.length := by omega
        subst hceq
        rw [write_loop_break _ _ _ _ _ _ _ (by omega)]
        simp [slot_text]

/-- The write loop when `score_index` lies `d` iterations ahead: it copies `d`
slots, writes the score, and continues as in `write_loop_copy`. -/
theorem write_loop_insert (score : Int) (score_index : Nat) (buf : List Int) :
    ∀ (d remaining i counter : Nat), score_index = i + d → d < remaining →
      counter + d ≤ buf.length →
      write_loop score score_index buf.length buf remaining i counter =
        ((buf.drop counter).take d).map Written.line ++
          Written.line score ::
            ((((buf.drop (counter + d)).map Written.line) ++
              [Written.unfilled buf.length]).take (remaining - d - 1)) := by
  intro d
  induction d with
  | zero =>
      intro remaining i counter hidx hrem hc
      obtain ⟨r, rfl⟩ : ∃ r, remaining = r + 1 := ⟨remaining - 1, by omega⟩
      have hcn : ¬ counter > buf.length := by omega
      have hi : i = score_index := by omega
      simp only [write_loop, if_neg hcn, if_pos hi]
      rw [write_loop_copy score score_index buf r (i + 1) counter (by omega) (by omega)]
      simp
  | succ d ih =>
      intro remaining i counter hidx hrem hc
      obtain ⟨r, rfl⟩ : ∃ r, remaining = r + 1 := ⟨remaining - 1, by omega⟩
      have hcn : ¬ counter > buf.length := by omega
      have hne : i ≠ score_index := by omega
      have hlt : counter < buf.length := by omega
      simp only [write_loop, if_neg hcn, if_neg hne]
      rw [ih r (i + 1) (counter + 1) (by omega) (by omega) (by omega)]
      rw [List.drop_eq_getElem_cons hlt]
      have e1 : counter + 1 + d = counter + (d + 1) := by omega
      have e2 : r - d - 1 = r + 1 - (d + 1) - 1 := by omega
      simp only [slot_text, List.getElem?_eq_getElem hlt, List.map_cons, List.cons_append,
        List.take_succ_cons, e1, e2]

theorem insert_score_length (c : Int) (l : List Int) :
    (insert_score c l).length = l.length + 1 := by
  induction l with
  | nil => rfl
  | cons b rest ih =>
      unfold insert_score
      split_ifs <;> simp [ih]

/-- What `update_scores` writes when the card is connected, both opens succeed and
the file has at most 10 lines. If an entry is strictly less than the candidate, or
the file has fewer than 9 lines, it writes the list with the candidate inserted,
then the first unfilled slot, within the 10 iterations of the write loop. Otherwise
(9 or 10 lines, none strictly less) the candidate is not written. -/
theorem update_scores_writes (l : List Int) (c : Int) (hlen : l.length ≤ 10) :
    update_scores true (some l) true c =
      some (if (∃ x ∈ l, x < c) ∨ l.length < 9 then
              (((insert_score c l).map Written.line) ++ [Written.unfilled l.length]).take 10
            else ((l.map Written.line) ++ [Written.unfilled l.length]).take 10) := by
  simp only [update_scores, read_loop_short l hlen, Bool.not_true, Bool.false_eq_true,
    if_false, if_true]
  congr 1
  by_cases hex : ∃ x ∈ l, x < c
  · obtain ⟨d, hd, hf, hins, _, _⟩ := find_loop_some c l hex 0
    have hf10 : ¬ (find_loop c l 0 = 10 ∧ l.length < 9) := by omega
    rw [if_neg hf10, if_pos (Or.inl hex), hf,
      write_loop_insert c (0 + d) l d 10 0 0 rfl (by omega) (by omega), hins]
    simp only [List.drop_zero, Nat.zero_add, List.map_append, List.map_cons, List.append_assoc,
      List.cons_append, List.map_take]
    have h1 : (List.take d (List.map Written.line l)).length = d := by
      simp [List.length_take]; omega
    have h2 : 10 - d = (10 - d - 1) + 1 := by omega
    conv_rhs =>
      rw [List.take_append_eq_append_take, h1,
        List.take_of_length_le (by omega : (List.take d (List.map Written.line l)).length ≤ 10),
        h2, List.take_succ_cons]
  · have hnone : ∀ x ∈ l, ¬ x < c := fun x hx hxc => hex ⟨x, hx, hxc⟩
    rw [find_loop_none c l hnone 0]
    by_cases h9 : l.length < 9
    · rw [if_pos ⟨rfl, h9⟩, if_pos (Or.inr h9),
        write_loop_insert c l.length l l.length 10 0 0 (by omega) (by omega) (by omega),
        insert_score_none c l hnone]
      have h3 : 10 - l.length - 1 = (10 - l.length - 2) + 1 := by omega
      simp only [List.drop_zero, List.take_length, Nat.zero_add, List.drop_length, List.map_nil,
        List.nil_append, List.map_append, List.map_cons, List.append_assoc, List.cons_append]
      rw [h3, List.take_succ_cons, List.take_nil]
      rw [List.take_of_length_le]
      simp
      omega
    · have hf10 : ¬ ((10 : Nat) = 10 ∧ l.length < 9) := fun h => h9 h.2
      have hor : ¬ ((∃ x ∈ l, x < c) ∨ l.length < 9) := fun h => h.elim hex h9
      rw [if_neg hf10, if_neg hor, write_loop_copy c 10 l 10 0 0 (by omega) (by omega)]
      simp

/-- Claim C5: for a scores file of exactly 10 lines and every candidate score,
`update_scores` writes, from the start of the file, the 10 lines of the merged list:
the candidate inserted before the first entry strictly less than it with the former
last entry dropped, or the 10 original entries when no entry is strictly less. -/
theorem update_scores_full (l : List Int) (c : Int) (hlen : l.length = 10) :
    update_scores true (some l) true c = some ((merge_full c l).map Written.line) ∧
    (merge_full c l).length = 10 := by
  rw [update_scores_writes l c (by omega)]
  unfold merge_full
  by_cases hex : ∃ x ∈ l, x < c
  · rw [if_pos (Or.inl hex), if_pos hex]
    have hl := insert_score_length c l
    constructor
    · rw [List.take_append_of_le_length (by simp [hl, hlen]), List.dropLast_eq_take,
        ← List.map_take, hl, hlen]
    · simp [hl, hlen]
  · have hor : ¬ ((∃ x ∈ l, x < c) ∨ l.length < 9) := fun h => h.elim hex (by omega)
    rw [if_neg hor, if_neg hex]
    refine ⟨?_, hlen⟩
    rw [List.take_append_of_le_length (by simp [hlen]), List.take_of_length_le (by simp [hlen])]

/-- Witness for claim C5: merging 65 into the full list 90, 80, ..., 10, 5. -/
theorem update_scores_full_witness :
    [90, 80, 70, 60, 50, 40, 30, 20, 10, (5 : Int)].length = 10 ∧
    update_scores true (some [90, 80, 70, 60, 50, 40, 30, 20, 10, 5]) true 65 =
      some ([90, 80, 70, 65, 60, 50, 40, 30, 20, 10].map Written.line) :=
  ⟨rfl, (update_scores_full [90, 80, 70, 60, 50, 40, 30, 20, 10, 5] 65 rfl).1⟩

/-- Claim C6, evaluated on the code: with 9 lines in the file and a candidate lower
than all of them, `update_scores` writes the 9 lines and then the unfilled slot 9,
and never writes the candidate; with an empty file it writes the candidate and then
the unfilled slot 0. -/
theorem update_scores_nine_entries :
    update_scores true (some [90, 80, 70, 60, 50, 40, 30, 20, 10]) true 5 =
      some [Written.line 90, Written.line 80, Written.line 70, Written.line 60,
        Written.line 50, Written.line 40, Written.line 30, Written.line 20,
        Written.line 10, Written.unfilled 9] ∧
    update_scores true (some []) true 95 = some [Written.line 95, Written.unfilled 0] := by
  constructor <;> rfl

/-- Claim C7 as stated fails: merging 50 into the full list 90, 80, ..., 10, 5 does not
leave it unchanged; 50 is written below the existing 50 and the entry 5 is dropped. -/
theorem update_scores_tie_counterexample :
    update_scores true (some [90, 80, 70, 60, 50, 40, 30, 20, 10, 5]) true 50 =
      some ([90, 80, 70, 60, 50, 50, 40, 30, 20, 10].map Written.line) ∧
    update_scores true (some [90, 80, 70, 60, 50, 40, 30, 20, 10, 5]) true 50 ≠
      some ([90, 80, 70, 60, 50, 40, 30, 20, 10, 5].map Written.line) := by
  constructor
  · rfl
  · decide

/-- A full list with an entry strictly less than the candidate: the lines written
are the entries above the first such entry, the candidate, and the entries from
there on without the last one. -/
theorem full_insert_written (l : List Int) (c : Int) (hlen : l.length = 10)
    (hex : ∃ x ∈ l, x < c) :
    ∃ d : Nat, d < 10 ∧ (∀ x ∈ l.take d, ¬ x < c) ∧ (∃ x, l[d]? = some x ∧ x < c) ∧
      (insert_score c l).dropLast = l.take d ++ c :: (l.drop d).dropLast ∧
      update_scores true (some l) true c =
        some ((l.take d ++ c :: (l.drop d).dropLast).map Written.line) := by
  obtain ⟨d, hd, _, hins, hpre, hat⟩ := find_loop_some c l hex 0
  have hne : l.drop d ≠ [] := by
    intro h
    have := congrArg List.length h
    simp at this
    omega
  have hdl : (insert_score c l).dropLast = l.take d ++ c :: (l.drop d).dropLast := by
    rw [hins, List.dropLast_append_of_ne_nil _ (by simp), List.dropLast_cons_of_ne_nil hne]
  refine ⟨d, by omega, hpre, hat, hdl, ?_⟩
  rw [update_scores_writes l c (by omega), if_pos (Or.inl hex), ← hdl]
  have hl := insert_score_length c l
  rw [List.take_append_of_le_length (by simp [hl, hlen]), List.dropLast_eq_take,
    ← List.map_take, hl, hlen]

/-- Claim C7, amended: for a full leaderboard sorted descending and a candidate equal
to one of its entries, every entry not below the candidate, the tied entry included,
keeps its position; the candidate is written before the first entry strictly less
than it and the last entry is dropped; the list is unchanged exactly when no entry is
strictly less than the candidate. -/
theorem update_scores_tie (l : List Int) (c : Int) (hlen : l.length = 10)
    (hsorted : l.Pairwise (fun a b => a ≥ b)) (hmem : c ∈ l) :
    ∃ ws : List Written, update_scores true (some l) true c = some ws ∧ ws.length = 10 ∧
      (∀ (i : Nat) (x : Int), l[i]? = some x → c ≤ x → ws[i]? = some (Written.line x)) ∧
      (∃ i : Nat, l[i]? = some c ∧ ws[i]? = some (Written.line c)) ∧
      (ws = l.map Written.line ↔ ∀ x ∈ l, c ≤ x) ∧
      ((∃ x ∈ l, x < c) → ws = ((insert_score c l).dropLast).map Written.line) := by
  have key : ∃ ws : List Written, update_scores true (some l) true c = some ws ∧
      ws.length = 10 ∧
      (∀ (i : Nat) (x : Int), l[i]? = some x → c ≤ x → ws[i]? = some (Written.line x)) ∧
      (ws = l.map Written.line ↔ ∀ x ∈ l, c ≤ x) ∧
      ((∃ x ∈ l, x < c) → ws = ((insert_score c l).dropLast).map Written.line) := by
    by_cases hex : ∃ x ∈ l, x < c
    · obtain ⟨d, hd, hpre, ⟨y, hy, hyc⟩, hdl, hws⟩ := full_insert_written l c hlen hex
      obtain ⟨hdlen, hyd⟩ := List.getElem?_eq_some_iff.mp hy
      have hlow : ∀ (i : Nat) (x : Int), l[i]? = some x → c ≤ x → i < d := by
        intro i x hi hcx
        obtain ⟨hilen, hxi⟩ := List.getElem?_eq_some_iff.mp hi
        by_contra hnot
        rcases Nat.eq_or_lt_of_le (Nat.le_of_not_lt hnot) with heq | hlt
        · subst heq
          omega
        · have := List.pairwise_iff_getElem.mp hsorted d i hdlen hilen hlt
          simp only at this
          omega
      refine ⟨_, hws, ?_, ?_, ?_, ?_⟩
      · simp [List.length_take, List.length_dropLast, hlen]
        omega
      · intro i x hi hcx
        have hid := hlow i x hi hcx
        rw [List.map_append, List.getElem?_append_left (by simp [List.length_take]; omega),
          List.getElem?_map, List.getElem?_take_of_lt hid, hi]
        rfl
      · constructor
        · intro h
          have h1 := congrArg (fun w => w[d]?) h
          simp only [List.map_append, List.map_cons] at h1
          rw [List.getElem?_append_right (by simp [List.length_take])] at h1
          simp only [List.length_map, List.length_take, List.getElem?_map, hy] at h1
          have hmin : min d l.length = d := by omega
          simp [hmin] at h1
          omega
        · intro h
          obtain ⟨x, hx, hxc⟩ := hex
          have := h x hx
          omega
      · intro _
        rw [hdl]
    · have hnone : ∀ x ∈ l, c ≤ x := fun x hx => by
        by_contra h
        exact hex ⟨x, hx, by omega⟩
      have hor : ¬ ((∃ x ∈ l, x < c) ∨ l.length < 9) := fun h => h.elim hex (by omega)
      refine ⟨l.map Written.line, ?_, by simp [hlen], ?_, ?_, ?_⟩
      · rw [update_scores_writes l c (by omega), if_neg hor,
          List.take_append_of_le_length (by simp [hlen]),
          List.take_of_length_le (by simp [hlen])]
      · intro i x hi _
        rw [List.getElem?_map, hi]
        rfl
      · exact ⟨fun _ => hnone, fun _ => rfl⟩
      · intro h
        exact absurd h hex
  obtain ⟨ws, h1, h2, h3, h4, h5⟩ := key
  obtain ⟨i, hi⟩ := List.mem_iff_getElem?.mp hmem
  exact ⟨ws, h1, h2, h3, ⟨i, hi, h3 i c hi (le_refl c)⟩, h4, h5⟩

/-- Witness for claim C7 amended: merging 50 into 90, 80, ..., 10, 5. -/
theorem update_scores_tie_witness :
    [90, 80, 70, 60, 50, 40, 30, 20, 10, (5 : Int)].length = 10 ∧
    (50 : Int) ∈ [90, 80, 70, 60, 50, 40, 30, 20, 10, (5 : Int)] ∧
    ∃ ws : List Written,
      update_scores true (some [90, 80, 70, 60, 50, 40, 30, 20, 10, 5]) true 50 = some ws ∧
      ws.length = 10 ∧
      (∀ (i : Nat) (x : Int), [90, 80, 70, 60, 50, 40, 30, 20, 10, (5 : Int)][i]? = some x →
        50 ≤ x → ws[i]? = some (Written.line x)) ∧
      (∃ i : Nat, [90, 80, 70, 60, 50, 40, 30, 20, 10, (5 : Int)][i]? = some 50 ∧
        ws[i]? = some (Written.line 50)) ∧
      (ws = [90, 80, 70, 60, 50, 40, 30, 20, 10, (5 : Int)].map Written.line ↔
        ∀ x ∈ [90, 80, 70, 60, 50, 40, 30, 20, 10, (5 : Int)], 50 ≤ x) ∧
      ((∃ x ∈ [90, 80, 70, 60, 50, 40, 30, 20, 10, (5 : Int)], x < 50) →
        ws = ((insert_score 50 [90, 80, 70, 60, 50, 40, 30, 20, 10, 5]).dropLast).map
          Written.line) :=
  ⟨rfl, by decide,
    update_scores_tie [90, 80, 70, 60, 50, 40, 30, 20, 10, 5] 50 rfl (by decide) (by decide)⟩

/-- Claim C8, evaluated on the code: without a card `update_scores` never opens the
file for writing; but with the card connected, a failed read-open and a successful
write-open, it goes on to open the file for writing and passes the slot `buf[0]`, which
no `f_gets` has filled, to `f_printf`, so the file is written to. -/
theorem update_scores_read_fail :
    (∀ (file : Option (List Int)) (write_ok : Bool) (score : Int),
      update_scores false file write_ok score = none) ∧
    update_scores true none true 42 = some [Written.unfilled 0] ∧
    update_scores true none true 42 ≠ none := by
  refine ⟨fun _ _ _ => rfl, rfl, ?_⟩
  decide

/-! ### Level generation and the session loop -/

/-- The generation loop stores to the consecutive indices from `i` on, one per
iteration, and leaves the other cells as they were. -/
theorem generate_loop_spec (rand : Nat → Nat) :
    ∀ (remaining i : Nat) (f : Nat → arrow_dir) (stores : List Nat),
      (generate_loop rand remaining i f stores).2 = stores ++ List.range' i remaining ∧
      ∀ j : Nat, (generate_loop rand remaining i f stores).1 j =
        if i ≤ j ∧ j < i + remaining then possible_flashes (rand j % 4) else f j := by
  intro remaining
  induction remaining with
  | zero =>
      intro i f stores
      refine ⟨by simp [generate_loop], ?_⟩
      intro j
      have hno : ¬ (i ≤ j ∧ j < i + 0) := by omega
      rw [if_neg hno]
      rfl
  | succ r ih =>
      intro i f stores
      obtain ⟨h2, h1⟩ := ih (i + 1)
        (Function.update f i (possible_flashes (rand i % 4))) (stores ++ [i])
      refine ⟨?_, ?_⟩
      · simp only [generate_loop, h2, List.range'_succ]
        simp
      · intro j
        simp only [generate_loop, h1, Function.update_apply]
        by_cases hji : j = i
        · subst hji
          have e1 : ¬ (j + 1 ≤ j ∧ j < j + 1 + r) := by omega
          have e2 : j ≤ j ∧ j < j + (r + 1) := by omega
          simp [e1, e2]
        · by_cases hin : i + 1 ≤ j ∧ j < i + 1 + r
          · have e2 : i ≤ j ∧ j < i + (r + 1) := by omega
            simp [hin, e2]
          · have e2 : ¬ (i ≤ j ∧ j < i + (r + 1)) := by omega
            simp [hin, e2, hji]

theorem generate_level_stores_eq (num_flashes : Int) (rand : Nat → Nat)
    (created : Nat → arrow_dir) :
    generate_level_stores num_flashes rand created = List.range num_flashes.toNat := by
  simp [generate_level_stores, generate_level_run,
    (generate_loop_spec rand num_flashes.toNat 0 created []).1, List.range_eq_range']

theorem generate_level_flashes (num_flashes : Int) (rand : Nat → Nat)
    (created : Nat → arrow_dir) (j : Nat) :
    (generate_level num_flashes rand created).flashes j =
      if j < num_flashes.toNat then possible_flashes (rand j % 4) else created j := by
  simp [generate_level, generate_level_run,
    (generate_loop_spec rand num_flashes.toNat 0 created []).2 j]

/-- In the response phase of a running game, a poll that presses exactly one
direction, different from the symbol under the cursor, is a strike. -/
theorem button_pressed_mismatch (s : State) (d : arrow_dir) (hresp : s.response = true)
    (hgame : s.game_in_progress = true)
    (hmis : d ≠ s.current_level.flashes s.current_level.response_num.toNat) :
    button_pressed s (press d) = { s with strikes := s.strikes + 1, response := false } := by
  unfold button_pressed press
  cases hd : s.current_level.flashes s.current_level.response_num.toNat <;>
    cases d <;> simp_all

/-- The test `strikes < 3` with fewer than 3 strikes leads to the test of `response`. -/
theorem main_step_loop_test (y : Sys) (rand : Nat → Nat) (created : Nat → arrow_dir)
    (hpc : y.pc = Pc.loop_test) (hs : y.st.strikes < 3) :
    main_step y rand created = { y with pc := Pc.response_test } := by
  simp [main_step, hpc, hs]

/-- One uninterrupted pass of the session loop with fewer than 3 strikes and the
response flag clear generates a fresh level. -/
theorem session_pass_render (y : Sys) (rand : Nat → Nat) (created : Nat → arrow_dir)
    (hpc : y.pc = Pc.loop_test) (hresp : y.st.response = false) (hs : y.st.strikes < 3) :
    session_pass y rand created =
      { render_level y rand created with pc := Pc.loop_test } := by
  unfold session_pass
  have h1 : main_step y rand created = { y with pc := Pc.response_test } := by
    simp [main_step, hpc, hs]
  rw [h1]
  simp [main_step, hresp, render_level]

/-- Witness for claim C1: the level UP, RIGHT, DOWN fed to `demo_state`. -/
theorem feed_level_passes_witness :
    (feed demo_state [press UP, press RIGHT, press DOWN]).current_level.response_num = 3 ∧
    (feed demo_state [press UP, press RIGHT, press DOWN]).score = 3 ∧
    (feed demo_state [press UP, press RIGHT, press DOWN]).game_round = 2 ∧
    (feed demo_state [press UP, press RIGHT, press DOWN]).response = false ∧
    (feed demo_state [press UP, press RIGHT, press DOWN]).strikes = 0 :=
  have h := feed_level_passes demo_state 3 (by decide) rfl rfl rfl rfl
  ⟨h.1, h.2.1, h.2.2.1, h.2.2.2.1, h.2.2.2.2.1⟩

/-- Claim C1 as stated fails: the run `stale_level_schedule` ends with no game in
progress, the response flag set, cursor 0 and the level of length 1 made of DOWN.
The poll pressing south is then taken as the request to view the high scores, and
cursor, score, round and flag stay as they were. -/
theorem feed_level_idle_counterexample :
    (run initial stale_level_schedule).st.response = true ∧
    (run initial stale_level_schedule).st.game_in_progress = false ∧
    (run initial stale_level_schedule).st.current_level.response_num = 0 ∧
    (run initial stale_level_schedule).st.level_size = 1 ∧
    level_symbols (run initial stale_level_schedule).st 1 = [DOWN] ∧
    (feed (run initial stale_level_schedule).st
      ((level_symbols (run initial stale_level_schedule).st 1).map press)
        ).current_level.response_num ≠ 1 ∧
    (feed (run initial stale_level_schedule).st
      ((level_symbols (run initial stale_level_schedule).st 1).map press)).score ≠
        (run initial stale_level_schedule).st.score + 1 ∧
    (feed (run initial stale_level_schedule).st
      ((level_symbols (run initial stale_level_schedule).st 1).map press)).game_round ≠
        (run initial stale_level_schedule).st.game_round + 1 ∧
    (feed (run initial stale_level_schedule).st
      ((level_symbols (run initial stale_level_schedule).st 1).map press)).response ≠ false := by
  decide

/-- Witness for claim C4: every switch pressed at once before any game has started. -/
theorem button_pressed_not_ready_witness :
    initial.st.response = false ∧
    (button_pressed initial.st ⟨true, true, true, true, true, true⟩).game_round = 0 ∧
    (button_pressed initial.st ⟨true, true, true, true, true, true⟩).strikes = 0 ∧
    (button_pressed initial.st ⟨true, true, true, true, true, true⟩).score = 0 :=
  have h := button_pressed_not_ready initial.st ⟨true, true, true, true, true, true⟩ rfl
  ⟨rfl, h.1, h.2.1, h.2.2.1⟩

/-- Claim C2 as stated fails: in `demo_state` with the cursor at 1, pressing west
against the symbol RIGHT is a strike that leaves the cursor at 1, and the next pass of
the session loop replaces the level UP, RIGHT, DOWN by a level of 2 fresh symbols. -/
theorem strike_counterexample :
    (with_cursor demo_state 1).response = true ∧
    (with_cursor demo_state 1).game_in_progress = true ∧
    (with_cursor demo_state 1).current_level.flashes 1 ≠ LEFT ∧
    (button_pressed (with_cursor demo_state 1) (press LEFT)).strikes = 1 ∧
    (button_pressed (with_cursor demo_state 1) (press LEFT)).current_level.response_num ≠ 0 ∧
    (session_pass ⟨button_pressed (with_cursor demo_state 1) (press LEFT), Pc.loop_test, [], 1⟩
      (rand_const 1) (cells UP)).st.level_size ≠ (with_cursor demo_state 1).level_size ∧
    (session_pass ⟨button_pressed (with_cursor demo_state 1) (press LEFT), Pc.loop_test, [], 1⟩
      (rand_const 1) (cells UP)).st.current_level.flashes 0 ≠
        (with_cursor demo_state 1).current_level.flashes 0 := by
  decide

/-- Claim C2, amended: in the response phase of a running game, one directional input
that does not match the symbol at the cursor adds exactly 1 to strikes and clears the
response flag, leaving round, score, the cursor and the level unchanged in
`button_pressed`; the next pass of the session loop with fewer than 3 strikes then
generates a fresh level for the new strike count, with cursor 0. -/
theorem strike_then_regenerate (s : State) (d : arrow_dir) (hresp : s.response = true)
    (hgame : s.game_in_progress = true)
    (hmis : d ≠ s.current_level.flashes s.current_level.response_num.toNat) :
    (button_pressed s (press d)).strikes = s.strikes + 1 ∧
    (button_pressed s (press d)).response = false ∧
    (button_pressed s (press d)).current_level = s.current_level ∧
    (button_pressed s (press d)).level_size = s.level_size ∧
    (button_pressed s (press d)).game_round = s.game_round ∧
    (button_pressed s (press d)).score = s.score ∧
    ∀ (y : Sys) (rand : Nat → Nat) (created : Nat → arrow_dir),
      y.st = button_pressed s (press d) → y.pc = Pc.loop_test → s.strikes + 1 < 3 →
        (session_pass y rand created).st.level_size =
          num_times_to_flash s.game_round (s.strikes + 1) ∧
        (session_pass y rand created).st.current_level.response_num = 0 ∧
        (∀ i : Nat, (i : Int) < (session_pass y rand created).st.level_size →
          (session_pass y rand created).st.current_level.flashes i =
            possible_flashes (rand i % 4)) ∧
        (session_pass y rand created).st.response = true ∧
        (session_pass y rand created).st.strikes = s.strikes + 1 ∧
        (session_pass y rand created).st.game_round = s.game_round ∧
        (session_pass y rand created).st.score = s.score := by
  rw [button_pressed_mismatch s d hresp hgame hmis]
  refine ⟨rfl, rfl, rfl, rfl, rfl, rfl, ?_⟩
  intro y rand created hst hpc hlt
  have hr : y.st.response = false := by rw [hst]
  have hs : y.st.strikes < 3 := by rw [hst]; exact hlt
  rw [session_pass_render y rand created hpc hr hs]
  simp only [render_level, hst]
  refine ⟨by trivial, by trivial, ?_, by trivial, by trivial, by trivial, by trivial⟩
  intro i hi
  rw [generate_level_flashes]
  have : i < (num_times_to_flash s.game_round (s.strikes + 1)).toNat := by omega
  rw [if_pos this]

/-- Witness for claim C2 amended: west pressed against RIGHT in `demo_state` with the
cursor at 1. -/
theorem strike_then_regenerate_witness :
    (button_pressed (with_cursor demo_state 1) (press LEFT)).strikes = 1 ∧
    (button_pressed (with_cursor demo_state 1) (press LEFT)).response = false ∧
    (button_pressed (with_cursor demo_state 1) (press LEFT)).current_level =
      (with_cursor demo_state 1).current_level :=
  have h := strike_then_regenerate (with_cursor demo_state 1) LEFT rfl rfl (by decide)
  ⟨h.1, h.2.1, h.2.2.1⟩

/-- When the third strike arrives while `main` is about to test `strikes < 3`, the
session loop is left at once: no level is generated, the score is handed to
`update_scores` and `game_in_progress` is cleared. -/
theorem third_strike_at_loop_test (y : Sys) (d : arrow_dir) (rand : Nat → Nat)
    (created : Nat → arrow_dir) (hpc : y.pc = Pc.loop_test) (hresp : y.st.response = true)
    (hgame : y.st.game_in_progress = true) (hstr : y.st.strikes = 2)
    (hmis : d ≠ y.st.current_level.flashes y.st.current_level.response_num.toNat) :
    (step y (Action.task (press d))).st.strikes = 3 ∧
    run y [Action.task (press d), Action.main rand created, Action.main rand created] =
      { y with
        st := { y.st with strikes := 3, response := false, game_in_progress := false },
        pc := Pc.wait_start,
        handed := y.handed ++ [y.st.score] } := by
  simp only [run, List.foldl_cons, List.foldl_nil, step,
    button_pressed_mismatch y.st d hresp hgame hmis, hstr]
  refine ⟨by norm_num, ?_⟩
  simp [main_step, hpc]

/-- Claim C3, evaluated on the code: when the third strike arrives between the test
`strikes < 3` and the test of `response`, `main` generates another level and sets the
response flag before leaving the session loop (only the display is skipped), and one
more mismatched input then brings strikes to 4. -/
theorem third_strike_race :
    (run initial (third_strike_schedule.take 12)).st.strikes = 3 ∧
    (run initial (third_strike_schedule.take 12)).st.response = false ∧
    (run initial (third_strike_schedule.take 12)).pc = Pc.response_test ∧
    (run initial third_strike_schedule).pc = Pc.game_over ∧
    (run initial third_strike_schedule).st.strikes = 3 ∧
    (run initial third_strike_schedule).st.response = true ∧
    (run initial third_strike_schedule).st.level_size = 1 ∧
    (run initial third_strike_schedule).levels_shown = 3 ∧
    (run initial third_strike_schedule).st.game_in_progress = true ∧
    (run initial (third_strike_schedule ++ [wrong_poll])).st.strikes = 4 := by
  decide

/-! ### Reachable rounds -/

theorem run_append (y : Sys) (xs ys : List Action) :
    run y (xs ++ ys) = run (run y xs) ys := by
  simp [run, List.foldl_append]

/-- A run made of task invocations only feeds the polls to `button_pressed`. -/
theorem run_tasks (polls : List Poll) :
    ∀ y : Sys, run y (polls.map Action.task) = { y with st := feed y.st polls } := by
  induction polls with
  | nil => intro y; rfl
  | cons p rest ih =>
      intro y
      simp only [List.map_cons, run, List.foldl_cons, step, feed]
      exact ih { y with st := button_pressed y.st p }

/-- From the top of the session loop in round `r >= 1` without a strike, the system
can reach the top of the session loop in round `r + 1` without a strike: `main`
generates the level and the player enters it. -/
theorem next_round_reachable (y : Sys) (r : Int) (hr : 1 ≤ r) (h : session_ready y r) :
    ∃ actions : List Action, session_ready (run y actions) (r + 1) := by
  obtain ⟨hpc, hresp, hstr, hround, hgame⟩ := h
  have hs : y.st.strikes < 3 := by rw [hstr]; decide
  have hpass := session_pass_render y (rand_const 0) (cells UP) hpc hresp hs
  have hn : num_times_to_flash r 0 = 3 + r / 2 := by
    unfold num_times_to_flash
    rw [Int.tdiv_eq_ediv (by omega) (by omega)]
    simp
  let y2 : Sys := session_pass y (rand_const 0) (cells UP)
  let n : Nat := (num_times_to_flash r 0).toNat
  have hncast : (n : Int) = num_times_to_flash r 0 := Int.toNat_of_nonneg (by rw [hn]; omega)
  have hy2 : y2 = { render_level y (rand_const 0) (cells UP) with pc := Pc.loop_test } := hpass
  have hsize : y2.st.level_size = n := by
    rw [hncast, hy2]
    simp [render_level, hround, hstr]
  have hfeed := feed_all y2.st n (by omega) hsize (by rw [hy2]; rfl) (by rw [hy2]; rfl)
    (by rw [hy2]; exact hgame)
  refine ⟨[main_up, main_up] ++ ((level_symbols y2.st n).map press).map Action.task, ?_⟩
  rw [run_append, run_tasks]
  have hrun2 : run y [main_up, main_up] = y2 := rfl
  rw [hrun2, hfeed]
  refine ⟨?_, rfl, ?_, ?_, ?_⟩
  · rw [hy2]
  · rw [hy2]; exact hstr
  · rw [hy2]; simp [render_level, with_cursor, hround]
  · rw [hy2]; exact hgame

/-- Every round from 1 on is reachable from the initial system at the top of the
session loop without a strike. -/
theorem round_reachable (k : Nat) :
    ∃ actions : List Action, session_ready (run initial actions) ((k : Int) + 1) := by
  induction k with
  | zero =>
      exact ⟨[Action.task centre_poll, main_up], rfl, rfl, rfl, rfl, rfl⟩
  | succ k ih =>
      obtain ⟨actions, h⟩ := ih
      obtain ⟨more, hmore⟩ := next_round_reachable (run initial actions) ((k : Int) + 1)
        (by omega) h
      refine ⟨actions ++ more, ?_⟩
      rw [run_append]
      have e : ((k + 1 : Nat) : Int) + 1 = (k : Int) + 1 + 1 := by push_cast; ring
      rw [e]
      exact hmore

/-- Claim C10 as stated fails: a request for 101 symbols is not rejected, it stores
to index 100; and such a request is reachable, since in round 196 without a strike
`main` asks for `num_times_to_flash 196 0 = 101` symbols. -/
theorem generate_level_capacity_counterexample :
    100 ∈ generate_level_stores 101 (rand_const 0) (cells UP) ∧
    ¬ (100 < FLASHES_CAPACITY) ∧
    num_times_to_flash 196 0 = 101 ∧
    ∃ actions : List Action,
      (run initial actions).pc = Pc.response_test ∧
      (run initial actions).st.response = false ∧
      (run initial actions).st.game_round = 196 ∧
      (run initial actions).st.strikes = 0 ∧
      (main_step (run initial actions) (rand_const 0) (cells UP)).st.level_size = 101 := by
  refine ⟨?_, by decide, by decide, ?_⟩
  · rw [generate_level_stores_eq]
    exact List.mem_range.mpr (by decide)
  · obtain ⟨actions, hpc, hresp, hstr, hround, _⟩ := round_reachable 195
    have hround2 : (run initial actions).st.game_round = 196 := by rw [hround]; norm_num
    have hs : (run initial actions).st.strikes < 3 := by rw [hstr]; decide
    have h1 : run initial (actions ++ [main_up]) =
        { run initial actions with pc := Pc.response_test } := by
      rw [run_append]
      exact main_step_loop_test _ _ _ hpc hs
    refine ⟨actions ++ [main_up], ?_, ?_, ?_, ?_, ?_⟩
    · rw [h1]
    · rw [h1]; exact hresp
    · rw [h1]; exact hround2
    · rw [h1]; exact hstr
    · rw [h1]
      generalize run initial actions = y at hresp hround2 hstr
      simp only [main_step, hresp, render_level, hround2, hstr, Bool.not_false, if_true]
      show num_times_to_flash 196 0 = 101
      decide

/-- Claim C10, amended: `generate_level` has no capacity test; a request for
`num_flashes` symbols stores to exactly the indices below `num_flashes` and yields
cursor 0, so for `num_flashes <= 100` every store is inside the 100 cells; and the
length `main` requests is at most 100 in every round from 1 to 195. -/
theorem generate_level_within_capacity (num_flashes : Int) (rand : Nat → Nat)
    (created : Nat → arrow_dir) (h : num_flashes ≤ 100) :
    generate_level_stores num_flashes rand created = List.range num_flashes.toNat ∧
    (∀ i ∈ generate_level_stores num_flashes rand created, i < FLASHES_CAPACITY) ∧
    (generate_level num_flashes rand created).response_num = 0 ∧
    (∀ i : Nat, (i : Int) < num_flashes →
      (generate_level num_flashes rand created).flashes i = possible_flashes (rand i % 4)) ∧
    (∀ round strikes : Int, 1 ≤ round → round ≤ 195 → 0 ≤ strikes →
      num_times_to_flash round strikes ≤ 100) := by
  refine ⟨generate_level_stores_eq _ _ _, ?_, rfl, ?_, ?_⟩
  · intro i hi
    rw [generate_level_stores_eq, List.mem_range] at hi
    unfold FLASHES_CAPACITY
    omega
  · intro i hi
    rw [generate_level_flashes, if_pos (by omega)]
  · intro round strikes h1 h2 h3
    unfold num_times_to_flash
    rw [Int.tdiv_eq_ediv (by omega) (by omega)]
    split_ifs <;> omega

/-- Witness for claim C10 amended: a request for 100 symbols. -/
theorem generate_level_within_capacity_witness :
    generate_level_stores 100 (rand_const 0) (cells UP) = List.range 100 ∧
    (∀ i ∈ generate_level_stores 100 (rand_const 0) (cells UP), i < FLASHES_CAPACITY) :=
  have h := generate_level_within_capacity 100 (rand_const 0) (cells UP) (by decide)
  ⟨h.1, h.2.1⟩

end FortunaSays
